import Mathlib

/-!
Verification development for the etrade-pdf-csv repository (Rust).

The repository has two source files:
  * `src/main.rs` — the Section Parser (a two-state machine over trimmed
    lines, `Parser::parse` / `parse_section` / `parse_section_body`) and the
    Record Assembler (`sections_to_map`).
  * `src/pdf.rs` — the Layout Reconstructor
    (`PlainTextOutput::output_character` and friends).

Every definition below is a shallow embedding of the corresponding Rust
item; doc comments name the Rust item each definition was translated from.
Strings are modelled by Lean `String` (compared and split at the `Char`
level); the `f64` quantities of the layout reconstructor are modelled by
`ℚ`, with the upstream affine transform and square root treated as inputs
(the claims under verification only concern the separator decision logic,
which uses ordered-field comparisons that agree with exact arithmetic on
the rational inputs used here).
-/

set_option maxRecDepth 4000

/-! ## String utilities mirroring the Rust standard library -/

/-- Splits a character list at every occurrence of `c`, mirroring Rust
`str::split` with a one-character pattern: `""` gives `[""]`, a separator
at the end produces a trailing empty piece. -/
def splitChar (c : Char) : List Char → List (List Char)
  | [] => [[]]
  | a :: rest =>
    if a = c then [] :: splitChar c rest
    else
      match splitChar c rest with
      | [] => [[a]]
      | s :: ss => (a :: s) :: ss

/-- Mirrors Rust `str::trim` (restricted to ASCII whitespace, which is all
the parsed documents contain): drop leading and trailing whitespace. -/
def trimStr (s : String) : String :=
  String.mk (((s.data.dropWhile Char.isWhitespace).reverse.dropWhile Char.isWhitespace).reverse)

/-- Mirrors Rust `l.split("\t")` as used in `Parser::parse_section_body`. -/
def splitTab (s : String) : List String :=
  (splitChar '\t' s.data).map String.mk

/-- Mirrors Rust `l.contains("\t")` (a one-character pattern, so substring
containment coincides with character containment). -/
def hasTab (s : String) : Bool :=
  s.data.contains '\t'

/-- Mirrors Rust `name2.starts_with("(")` from `sections_to_map`. -/
def startsWithParen (s : String) : Bool :=
  match s.data with
  | [] => false
  | c :: _ => c = '('

/-- Drops one trailing carriage return, as Rust `str::lines` does per line. -/
def dropTrailingCR (cs : List Char) : List Char :=
  if cs.getLast? = some '\r' then cs.dropLast else cs

/-- Mirrors Rust `str::lines`: split on `'\n'`, a final newline does not
produce a trailing empty line, and each line loses one trailing `'\r'`. -/
def rustLines (s : String) : List String :=
  if s.data = [] then []
  else
    let parts :=
      if s.data.getLast? = some '\n' then (splitChar '\n' s.data).dropLast
      else splitChar '\n' s.data
    parts.map (fun cs => String.mk (dropTrailingCR cs))

/-! ## Section Parser (`src/main.rs`) -/

/-- Mirrors the Rust enum `PDFType`. -/
inductive PDFType : Type
  | Unknown : PDFType
  | ESPP : PDFType
  | RSU : PDFType
deriving DecidableEq

/-- Mirrors the Rust struct `Section`. -/
structure Section where
  name : String
  body : List (String × String)
deriving DecidableEq

/-- Observable outcome of `Parser::parse`: the `pdf_type` and `data`
fields of the `Parser` struct after the state machine halts. -/
structure ParserOut where
  pdf_type : PDFType
  data : List Section
deriving DecidableEq

/-- Mirrors `Parser::new`: `input.lines().map(|v| v.trim().to_string())`. -/
def parserNewLines (input : String) : List String :=
  (rustLines input).map trimStr

/-- Mirrors `Parser::skip_empty_lines`, expressed on the suffix of lines
from `pos` on: advance past leading empty lines. -/
def skipEmptyLines : List String → List String
  | [] => []
  | l :: rest => if l = "" then skipEmptyLines rest else l :: rest

/-- Mirrors `Parser::peek` as observed from the suffix of unconsumed
lines. The Rust method returns `None` iff `pos >= lines.len() - 1`, i.e.
iff at most one unconsumed line remains (so the final line of the input
can never be peeked at), and otherwise returns `lines[pos]`, the head of
the suffix, without advancing `pos`. -/
def peekNext : List String → Option String
  | a :: _ :: _ => some a
  | _ => none

/-- Mirrors the two fields read by `Parser::parse_section_body` from a
non-blank line: `parts[0]` and `parts.get(1).unwrap_or("")` of
`l.split("\t").map(|v| v.trim())`. `splitTab` never returns `[]`
(see `splitTab_ne_nil`), so the `parts[0]` index is total. -/
def splitFields (l : String) : String × String :=
  let parts := (splitTab l).map trimStr
  (parts.getD 0 "", parts.getD 1 "")

/-- The two states of the machine: `Parser::parse_section` scanning for a
section name, and `Parser::parse_section_body` carrying the
`current_section` name and the `current_body` accumulator (the Rust code
keeps these in mutable fields; at every transition into the body state the
accumulator is empty, and it is threaded here as an argument). -/
inductive MState : Type
  | scan : MState
  | body : String → List (String × String) → MState

/-- The state machine of `Parser::parse`, driven by fuel (one unit per
consumed line; `runFuel_isSome` shows `lines.length + 1` units always
suffice, which is the termination argument for the Rust trampoline).
Each branch is translated from `parse_section` / `parse_section_body`:
header literals set `pdf_type`, boilerplate and blank lines are skipped,
any other scanned line opens a section; in the body state a non-blank
line appends a split pair, a blank line closes the section unless the
peeked line contains a tab, and exhaustion discards the open section. -/
def runFuel : Nat → MState → List String → PDFType → List Section → Option ParserOut
  | 0, _, _, _, _ => none
  | Nat.succ n, MState.scan, lines, ty, data =>
    match lines with
    | [] => some ⟨ty, data⟩
    | l :: rest =>
      if l = "EMPLOYEE STOCK PLAN RELEASE CONFIRMATION" then
        runFuel n MState.scan rest PDFType.RSU data
      else if l = "EMPLOYEE STOCK PLAN PURCHASE CONFIRMATION" then
        runFuel n MState.scan rest PDFType.ESPP data
      else if l = "Release Details" ∨ l = "Registration:" ∨ l = "Purchase Details" ∨ l = "" then
        runFuel n MState.scan rest ty data
      else
        runFuel n (MState.body l []) (skipEmptyLines rest) ty data
  | Nat.succ n, MState.body name acc, lines, ty, data =>
    match lines with
    | [] => some ⟨ty, data⟩
    | l :: rest =>
      if l = "" then
        match peekNext rest with
        | some a =>
          if hasTab a then runFuel n (MState.body name acc) rest ty data
          else runFuel n MState.scan rest ty (data ++ [⟨name, acc⟩])
        | none => runFuel n MState.scan rest ty (data ++ [⟨name, acc⟩])
      else
        runFuel n (MState.body name (acc ++ [splitFields l])) rest ty data

/-- Running the machine from `Parser::parse_section` on a suffix of lines,
with canonical fuel. -/
def parseSectionFrom (lines : List String) (ty : PDFType) (data : List Section) : Option ParserOut :=
  runFuel (lines.length + 1) MState.scan lines ty data

/-- Running the machine from `Parser::parse_section_body` on a suffix of
lines, with canonical fuel. -/
def parseSectionBodyFrom (lines : List String) (name : String)
    (acc : List (String × String)) (ty : PDFType) (data : List Section) : Option ParserOut :=
  runFuel (lines.length + 1) (MState.body name acc) lines ty data

/-- Mirrors `Parser::new` followed by `Parser::parse`: initial state is
`parse_section` with `pdf_type = Unknown`, `data = []`, `pos = 0`. -/
def parserParse (input : String) : Option ParserOut :=
  parseSectionFrom (parserNewLines input) PDFType.Unknown []

/-! ## Record Assembler (`sections_to_map` in `src/main.rs`) -/

/-- Association-list lookup by string key, modelling `HashMap` lookup. -/
def lookupA {α : Type} : List (String × α) → String → Option α
  | [], _ => none
  | (k1, v1) :: rest, k => if k1 = k then some v1 else lookupA rest k

/-- Association-list insert with overwrite, modelling `HashMap::insert`:
replace the value at an existing key, otherwise add the binding. -/
def updateA {α : Type} : List (String × α) → String → α → List (String × α)
  | [], k, v => [(k, v)]
  | (k1, v1) :: rest, k, v =>
    if k1 = k then (k, v) :: rest else (k1, v1) :: updateA rest k v

/-- The inner loop of `sections_to_map` over one section's body, with
one-step lookahead (`body_iter.peek()`): a pair with a non-empty value is
inserted as is; a pair with an empty value followed by another pair
consumes that pair as a continuation, keyed either by the original key
(when the continuation key starts with `'('`) or by the two keys joined
with a space; a pair with an empty value and nothing following falls into
the same `else` branch as a non-empty pair and is inserted with the empty
value. -/
def processBody : List (String × String) → List (String × String) → List (String × String)
  | [], entry => entry
  | (name, value) :: rest, entry =>
    if value = "" then
      match rest with
      | (name2, value2) :: rest2 =>
        if startsWithParen name2 then processBody rest2 (updateA entry name value2)
        else processBody rest2 (updateA entry (name ++ " " ++ name2) value2)
      | [] => updateA entry name value
    else
      processBody rest (updateA entry name value)

/-- Mirrors `sections_to_map`: fold the section list into a map from
section name to field map, fetching the existing entry for a repeated
section name (`map.entry(section.name).or_default()`). -/
def sections_to_map (sections : List Section) : List (String × List (String × String)) :=
  sections.foldl
    (fun map s => updateA map s.name (processBody s.body ((lookupA map s.name).getD [])))
    []

/-- Field lookup in the result of `sections_to_map`:
`data[section][key]` as an `Option`. -/
def lookupField (map : List (String × List (String × String)))
    (sec key : String) : Option String :=
  match lookupA map sec with
  | some entry => lookupA entry key
  | none => none

/-! ## Layout Reconstructor (`src/pdf.rs`) -/

/-- Mirrors the mutable state of `PlainTextOutput`: `last_end`, `last_y`,
`first_char`. (`writer` and `flip_ctm` are not part of the separator
decision; positions below are already transformed.) -/
structure TextState where
  last_end : ℚ
  last_y : ℚ
  first_char : Bool

/-- Mirrors `PlainTextOutput::new`: `last_end = 100000.`, `last_y = 0.`,
`first_char = false`. -/
def initTextState : TextState :=
  ⟨100000, 0, false⟩

/-- Mirrors `f64::abs` as used in `output_character`. -/
def rabs (q : ℚ) : ℚ :=
  if q < 0 then -q else q

/-- The separator text written by `PlainTextOutput::output_character`
before the glyph: the four independent `if` statements, in source order,
each appending its separator when its condition holds. `x`, `y` are the
flip-transformed position and `tfs` the transformed font size (computed
upstream of the modelled logic from `trm`, `flip_ctm` and `font_size`). -/
def sepString (st : TextState) (x y tfs : ℚ) : String :=
  if st.first_char then
    (if rabs (y - st.last_y) > tfs * 1.5 then "\n" else "")
      ++ (if x < st.last_end ∧ rabs (y - st.last_y) > tfs * 0.5 then "\n" else "")
      ++ (if x > st.last_end ∧ y < st.last_y then "\n" else "")
      ++ (if x > st.last_end + tfs * 0.1 then "\t" else "")
  else ""

/-- Mirrors one call of `PlainTextOutput::output_character`: the text
written to the output (separator followed by the glyph text) and the
updated state (`first_char := false`, `last_y := y`,
`last_end := x + width * transformed_font_size`). -/
def output_character (st : TextState) (x y tfs width : ℚ) (ch : String) : TextState × String :=
  (⟨x + width * tfs, y, false⟩, sepString st x y tfs ++ ch)

/-- Occurrences of a character in a string. -/
def countChar (c : Char) (s : String) : Nat :=
  s.data.count c

/-! ## Checked model of the Section Parser

A second embedding of `Parser::parse`, at the level of the source's
`pos`-indexed vector accesses, in which every operation that can panic in
Rust — the index `self.lines[self.pos]`, the `usize` subtraction
`self.lines.len() - 1` in `peek` (which panics in debug builds when
`len == 0`, and in release builds wraps and then indexes out of bounds at
the same call), and the index `parts[0]` — is modelled as an
`Except String` failure. `parserParseChecked_isOk` shows no reachable
state triggers any of them. -/

/-- Mirrors `Parser::next` with explicit bounds: the guard `pos >=
lines.len()` from the source, then the index `lines[pos]`. -/
def nextC (lines : List String) (pos : Nat) : Except String (Option (String × Nat)) :=
  if lines.length ≤ pos then Except.ok none
  else
    match lines[pos]? with
    | some l => Except.ok (some (l, pos + 1))
    | none => Except.error "index out of bounds"

/-- Mirrors `Parser::peek` with explicit failure: the subtraction
`lines.len() - 1` underflows when no line exists (modelled as an error
since the Rust panics there in either build profile), otherwise the guard
`pos >= len - 1` and the index `lines[pos]`. -/
def peekC (lines : List String) (pos : Nat) : Except String (Option String) :=
  if lines.length = 0 then Except.error "attempt to subtract with overflow"
  else if lines.length - 1 ≤ pos then Except.ok none
  else
    match lines[pos]? with
    | some l => Except.ok (some l)
    | none => Except.error "index out of bounds"

/-- Mirrors `Parser::skip_empty_lines`: the loop guard `pos < len`
protects its index, so it is total; the resulting position is `pos` plus
the leading run of empty lines from `pos`. -/
def skipEmptyC (lines : List String) (pos : Nat) : Nat :=
  pos + ((lines.drop pos).takeWhile (fun l => l = "")).length

/-- Mirrors the pair extraction of `parse_section_body` with the
`parts[0]` index explicit. -/
def splitFieldsC (l : String) : Except String (String × String) :=
  match (splitTab l).map trimStr with
  | [] => Except.error "index out of bounds"
  | p :: ps => Except.ok (p, ps.getD 0 "")

/-- The checked state machine: same structure as `runFuel` but over
`(lines, pos)` with every fallible access threaded through `Except`. -/
def runFuelC : Nat → MState → List String → Nat → PDFType → List Section → Except String ParserOut
  | 0, _, _, _, _, _ => Except.error "out of fuel"
  | Nat.succ n, MState.scan, lines, pos, ty, data =>
    match nextC lines pos with
    | Except.error e => Except.error e
    | Except.ok none => Except.ok ⟨ty, data⟩
    | Except.ok (some (l, pos2)) =>
      if l = "EMPLOYEE STOCK PLAN RELEASE CONFIRMATION" then
        runFuelC n MState.scan lines pos2 PDFType.RSU data
      else if l = "EMPLOYEE STOCK PLAN PURCHASE CONFIRMATION" then
        runFuelC n MState.scan lines pos2 PDFType.ESPP data
      else if l = "Release Details" ∨ l = "Registration:" ∨ l = "Purchase Details" ∨ l = "" then
        runFuelC n MState.scan lines pos2 ty data
      else
        runFuelC n (MState.body l []) lines (skipEmptyC lines pos2) ty data
  | Nat.succ n, MState.body name acc, lines, pos, ty, data =>
    match nextC lines pos with
    | Except.error e => Except.error e
    | Except.ok none => Except.ok ⟨ty, data⟩
    | Except.ok (some (l, pos2)) =>
      if l = "" then
        match peekC lines pos2 with
        | Except.error e => Except.error e
        | Except.ok (some a) =>
          if hasTab a then runFuelC n (MState.body name acc) lines pos2 ty data
          else runFuelC n MState.scan lines pos2 ty (data ++ [⟨name, acc⟩])
        | Except.ok none => runFuelC n MState.scan lines pos2 ty (data ++ [⟨name, acc⟩])
      else
        match splitFieldsC l with
        | Except.error e => Except.error e
        | Except.ok pr => runFuelC n (MState.body name (acc ++ [pr])) lines pos2 ty data

/-- Mirrors `Parser::new` followed by `Parser::parse` in the checked
model, starting at `pos = 0`. -/
def parserParseChecked (input : String) : Except String ParserOut :=
  runFuelC ((parserNewLines input).length + 1) MState.scan (parserNewLines input) 0
    PDFType.Unknown []

/-! ## Helper lemmas -/

/-- Splitting a character list always yields at least one piece, so the
Rust `parts[0]` index in `parse_section_body` is in bounds. -/
theorem splitChar_ne_nil (c : Char) (cs : List Char) : splitChar c cs ≠ [] := by
  cases cs with
  | nil => simp [splitChar]
  | cons a rest =>
    rw [splitChar]
    split
    · simp
    · split <;> simp

/-- Rust `l.split("\t")` always yields at least one part. -/
theorem splitTab_ne_nil (l : String) : splitTab l ≠ [] := by
  have h := splitChar_ne_nil '\t' l.data
  simp [splitTab, h]

/-- Skipping empty lines never lengthens the remaining input. -/
theorem skipEmptyLines_length_le (ls : List String) :
    (skipEmptyLines ls).length ≤ ls.length := by
  induction ls with
  | nil => simp [skipEmptyLines]
  | cons l rest ih =>
    rw [skipEmptyLines]
    split
    · exact Nat.le_trans ih (by simp)
    · simp

/-- Fuel sufficiency for the state machine: one more unit of fuel than
there are unconsumed lines always produces a result, because every step
of either state consumes at least one line. This is the termination
argument of the Rust trampoline (`pos` strictly increases on every state
function call and is bounded by `lines.len()`). -/
theorem runFuel_isSome :
    ∀ (n : Nat) (st : MState) (lines : List String) (ty : PDFType) (data : List Section),
      lines.length < n → (runFuel n st lines ty data).isSome = true := by
  intro n
  induction n with
  | zero => intro st lines ty data h; exact absurd h (Nat.not_lt_zero _)
  | succ n ih =>
    intro st lines ty data h
    cases st with
    | scan =>
      cases lines with
      | nil => rfl
      | cons l rest =>
        simp only [List.length_cons, Nat.succ_lt_succ_iff] at h
        rw [runFuel]
        split
        · exact ih _ _ _ _ h
        · split
          · exact ih _ _ _ _ h
          · split
            · exact ih _ _ _ _ h
            · exact ih _ _ _ _
                (Nat.lt_of_le_of_lt (skipEmptyLines_length_le rest) h)
    | body name acc =>
      cases lines with
      | nil => rfl
      | cons l rest =>
        simp only [List.length_cons, Nat.succ_lt_succ_iff] at h
        rw [runFuel]
        split
        · cases hpk : peekNext rest with
          | some a =>
            simp only [hpk]
            split
            · exact ih _ _ _ _ h
            · exact ih _ _ _ _ h
          | none =>
            simp only [hpk]
            exact ih _ _ _ _ h
        · exact ih _ _ _ _ h

/-- Reading past the end: `Parser::next` returns `None` without indexing. -/
theorem nextC_at_end (lines : List String) (pos : Nat) (h : lines.length ≤ pos) :
    nextC lines pos = Except.ok none := by
  simp [nextC, h]

/-- Reading in bounds: `Parser::next` returns the current line and the
advanced position; the index is in bounds. -/
theorem nextC_in_bounds (lines : List String) (pos : Nat) (h : pos < lines.length) :
    nextC lines pos = Except.ok (some (lines[pos], pos + 1)) := by
  rw [nextC, if_neg (Nat.not_le.mpr h), List.getElem?_eq_getElem h]

/-- As long as at least one line exists, `Parser::peek` cannot panic:
the subtraction does not underflow and its index stays in bounds. -/
theorem peekC_isOk (lines : List String) (pos : Nat) (h : lines ≠ []) :
    ∃ o, peekC lines pos = Except.ok o := by
  have hlen : lines.length ≠ 0 := fun hl => h (List.length_eq_zero.mp hl)
  rw [peekC, if_neg hlen]
  split
  · exact ⟨none, rfl⟩
  · rename_i hlt
    have hpos : pos < lines.length := by omega
    rw [List.getElem?_eq_getElem hpos]
    exact ⟨some lines[pos], rfl⟩

/-- The `parts[0]` index of `parse_section_body` is always in bounds. -/
theorem splitFieldsC_isOk (l : String) : ∃ pr, splitFieldsC l = Except.ok pr := by
  rw [splitFieldsC]
  split
  · rename_i heq
    have := splitTab_ne_nil l
    simp only [List.map_eq_nil_iff] at heq
    exact absurd heq this
  · exact ⟨_, rfl⟩

/-- `skip_empty_lines` never moves the position backwards. -/
theorem skipEmptyC_ge (lines : List String) (pos : Nat) : pos ≤ skipEmptyC lines pos :=
  Nat.le_add_right _ _

/-- No reachable state of the checked machine panics or exhausts the
canonical fuel: with more fuel than unconsumed lines, the run produces a
result. Every vector index and the `len - 1` subtraction of `peek` are
exercised only in bounds (`peek` runs only after `next` returned a line,
so at least one line exists). -/
theorem runFuelC_isOk :
    ∀ (n : Nat) (st : MState) (lines : List String) (pos : Nat) (ty : PDFType)
      (data : List Section),
      lines.length - pos < n → (runFuelC n st lines pos ty data).isOk = true := by
  intro n
  induction n with
  | zero => intro st lines pos ty data h; exact absurd h (Nat.not_lt_zero _)
  | succ n ih =>
    intro st lines pos ty data h
    cases st with
    | scan =>
      by_cases hp : lines.length ≤ pos
      · simp only [runFuelC, nextC_at_end lines pos hp]
        rfl
      · have hp2 : pos < lines.length := Nat.not_le.mp hp
        simp only [runFuelC, nextC_in_bounds lines pos hp2]
        split
        · exact ih _ _ _ _ _ (by omega)
        · split
          · exact ih _ _ _ _ _ (by omega)
          · split
            · exact ih _ _ _ _ _ (by omega)
            · have hskip := skipEmptyC_ge lines (pos + 1)
              exact ih _ _ _ _ _ (by omega)
    | body name acc =>
      by_cases hp : lines.length ≤ pos
      · simp only [runFuelC, nextC_at_end lines pos hp]
        rfl
      · have hp2 : pos < lines.length := Nat.not_le.mp hp
        simp only [runFuelC, nextC_in_bounds lines pos hp2]
        split
        · have hne : lines ≠ [] := by
            intro hnil
            rw [hnil] at hp2
            exact absurd hp2 (by simp)
          obtain ⟨o, hpc⟩ := peekC_isOk lines (pos + 1) hne
          cases o with
          | some a =>
            simp only [hpc]
            split
            · exact ih _ _ _ _ _ (by omega)
            · exact ih _ _ _ _ _ (by omega)
          | none =>
            simp only [hpc]
            exact ih _ _ _ _ _ (by omega)
        · obtain ⟨pr, hsf⟩ := splitFieldsC_isOk lines[pos]
          simp only [hsf]
          exact ih _ _ _ _ _ (by omega)

/-- Definitional unfolding of one `parse_section` step on a non-empty
suffix. -/
theorem runFuel_scan_cons (n : Nat) (l : String) (rest : List String) (ty : PDFType)
    (data : List Section) :
    runFuel (n + 1) MState.scan (l :: rest) ty data =
      (if l = "EMPLOYEE STOCK PLAN RELEASE CONFIRMATION" then
        runFuel n MState.scan rest PDFType.RSU data
      else if l = "EMPLOYEE STOCK PLAN PURCHASE CONFIRMATION" then
        runFuel n MState.scan rest PDFType.ESPP data
      else if l = "Release Details" ∨ l = "Registration:" ∨ l = "Purchase Details" ∨ l = "" then
        runFuel n MState.scan rest ty data
      else
        runFuel n (MState.body l []) (skipEmptyLines rest) ty data) := rfl

/-- Definitional unfolding of one `parse_section_body` step on a
non-empty suffix. -/
theorem runFuel_body_cons (n : Nat) (name : String) (acc : List (String × String))
    (l : String) (rest : List String) (ty : PDFType) (data : List Section) :
    runFuel (n + 1) (MState.body name acc) (l :: rest) ty data =
      (if l = "" then
        match peekNext rest with
        | some a =>
          if hasTab a then runFuel n (MState.body name acc) rest ty data
          else runFuel n MState.scan rest ty (data ++ [⟨name, acc⟩])
        | none => runFuel n MState.scan rest ty (data ++ [⟨name, acc⟩])
      else
        runFuel n (MState.body name (acc ++ [splitFields l])) rest ty data) := rfl

/-- Dropping the measured prefix of elements satisfying a predicate is
`dropWhile`. -/
theorem drop_length_takeWhile (p : String → Bool) (ls : List String) :
    ls.drop ((ls.takeWhile p).length) = ls.dropWhile p := by
  induction ls with
  | nil => rfl
  | cons a t ih =>
    rw [List.takeWhile_cons, List.dropWhile_cons]
    cases hp : p a
    · simp [hp]
    · simp [hp, ih]

/-- `skip_empty_lines` drops the leading blank lines. -/
theorem skipEmptyLines_eq_dropWhile (ls : List String) :
    skipEmptyLines ls = ls.dropWhile (fun l => l = "") := by
  induction ls with
  | nil => rfl
  | cons a t ih =>
    rw [skipEmptyLines, List.dropWhile_cons]
    by_cases ha : a = ""
    · simp [ha, ih]
    · simp [ha]

/-- The position reached by the checked `skip_empty_lines` corresponds to
the suffix computed by the list-level `skip_empty_lines`. -/
theorem drop_skipEmptyC (lines : List String) (pos : Nat) :
    lines.drop (skipEmptyC lines pos) = skipEmptyLines (lines.drop pos) := by
  rw [skipEmptyC, skipEmptyLines_eq_dropWhile, ← List.drop_drop, drop_length_takeWhile]

/-- On a non-empty line vector, the checked `Parser::peek` agrees with the
suffix-level `peekNext`: it reports nothing iff at most one unconsumed
line remains, and otherwise the head of the unconsumed suffix. -/
theorem peekC_eq_peekNext (lines : List String) (pos : Nat) (h : 0 < lines.length) :
    peekC lines pos = Except.ok (peekNext (lines.drop pos)) := by
  rw [peekC, if_neg (by omega)]
  by_cases h2 : lines.length - 1 ≤ pos
  · rw [if_pos h2]
    have hlen : (lines.drop pos).length ≤ 1 := by
      rw [List.length_drop]
      omega
    cases hd : lines.drop pos with
    | nil => rfl
    | cons a t =>
      cases t with
      | nil => rfl
      | cons b t2 =>
        rw [hd] at hlen
        simp at hlen
  · rw [if_neg h2]
    have hpos : pos < lines.length := by omega
    rw [List.getElem?_eq_getElem hpos]
    have hd : lines.drop pos = lines[pos] :: lines.drop (pos + 1) :=
      (List.getElem_cons_drop lines pos hpos).symm
    have hlen : 0 < (lines.drop (pos + 1)).length := by
      rw [List.length_drop]
      omega
    cases hd2 : lines.drop (pos + 1) with
    | nil =>
      rw [hd2] at hlen
      simp at hlen
    | cons b t2 =>
      rw [hd, hd2]
      rfl

/-- The checked pair extraction never fails and agrees with the total
one. -/
theorem splitFieldsC_eq (l : String) : splitFieldsC l = Except.ok (splitFields l) := by
  rw [splitFieldsC]
  cases hp : (splitTab l).map trimStr with
  | nil => exact absurd (List.map_eq_nil_iff.mp hp) (splitTab_ne_nil l)
  | cons p ps =>
    simp [splitFields, hp, List.getD_cons_zero, List.getD_cons_succ]

/-- Views a fuel-model result as a checked-model result. -/
def optExcept (o : Option ParserOut) : Except String ParserOut :=
  match o with
  | some r => Except.ok r
  | none => Except.error "out of fuel"

/-- Refinement: the checked, position-indexed machine computes exactly
what the suffix-level machine computes on the unconsumed suffix of lines
(and in particular never panics along the way). -/
theorem runFuelC_eq_runFuel (n : Nat) :
    ∀ (st : MState) (lines : List String) (pos : Nat) (ty : PDFType) (data : List Section),
      runFuelC n st lines pos ty data = optExcept (runFuel n st (lines.drop pos) ty data) := by
  induction n with
  | zero => intro st lines pos ty data; rfl
  | succ n ih =>
    intro st lines pos ty data
    by_cases hp : lines.length ≤ pos
    · have hd : lines.drop pos = [] := List.drop_eq_nil_of_le hp
      cases st with
      | scan =>
        simp only [runFuelC, nextC_at_end lines pos hp, hd]
        rfl
      | body name acc =>
        simp only [runFuelC, nextC_at_end lines pos hp, hd]
        rfl
    · have hp2 : pos < lines.length := Nat.not_le.mp hp
      have hd : lines.drop pos = lines[pos] :: lines.drop (pos + 1) :=
        (List.getElem_cons_drop lines pos hp2).symm
      cases st with
      | scan =>
        simp only [runFuelC, nextC_in_bounds lines pos hp2, hd]
        rw [runFuel_scan_cons]
        split
        · exact ih _ _ _ _ _
        · split
          · exact ih _ _ _ _ _
          · split
            · exact ih _ _ _ _ _
            · rw [← drop_skipEmptyC lines (pos + 1)]
              exact ih _ _ _ _ _
      | body name acc =>
        simp only [runFuelC, nextC_in_bounds lines pos hp2, hd]
        rw [runFuel_body_cons]
        split
        · rw [peekC_eq_peekNext lines (pos + 1) (by omega)]
          cases hpk : peekNext (lines.drop (pos + 1)) with
          | some a =>
            simp only [hpk]
            split
            · exact ih _ _ _ _ _
            · exact ih _ _ _ _ _
          | none =>
            simp only [hpk]
            exact ih _ _ _ _ _
        · rw [splitFieldsC_eq]
          simp only []
          exact ih _ _ _ _ _

/-- Refinement at the entry point: the checked `Parser::parse` agrees
with the suffix-level one on every input. -/
theorem parserParseChecked_eq (input : String) :
    parserParseChecked input = optExcept (parserParse input) := by
  rw [parserParseChecked, runFuelC_eq_runFuel, List.drop_zero]
  rfl

/-- Looking a key up right after inserting it yields the inserted value
(the `HashMap::insert` overwrite semantics of the association-list model). -/
theorem lookupA_updateA_self {α : Type} (m : List (String × α)) (k : String) (v : α) :
    lookupA (updateA m k v) k = some v := by
  induction m with
  | nil => simp [updateA, lookupA]
  | cons p rest ih =>
    obtain ⟨k1, v1⟩ := p
    rw [updateA]
    split
    · simp [lookupA]
    · rename_i hk
      rw [lookupA, if_neg hk]
      exact ih

/-- The modelled `f64::abs` is nonnegative. -/
theorem rabs_nonneg (q : ℚ) : 0 ≤ rabs q := by
  rw [rabs]
  split <;> linarith

/-- A vertical jump beyond `1.5 * tfs` is in particular beyond
`0.5 * tfs`, whatever the sign of `tfs`. -/
theorem rabs_gt_half {d t : ℚ} (h : rabs d > t * 1.5) : rabs d > t * 0.5 := by
  rcases le_or_lt 0 t with ht | ht
  · linarith
  · have := rabs_nonneg d
    linarith

/-- Character counts add up over string concatenation. -/
theorem countChar_append (c : Char) (s t : String) :
    countChar c (s ++ t) = countChar c s + countChar c t := by
  simp [countChar, String.data_append, List.count_append]

/-! ## Claims -/

/-- Claim C3: for every input whose line sequence is exhausted while the
parser is in state `InSectionBody` — equivalently, every remaining line is
non-blank, since only a blank line can leave the body state — the pairs
accumulated for the open section are discarded: the machine halts with the
incoming section list (and document kind) unchanged, so no section with
the current section name is appended. -/
theorem claim_C3_discard_at_exhaustion (lines : List String) (name : String)
    (acc : List (String × String)) (ty : PDFType) (data : List Section)
    (h : ∀ l ∈ lines, l ≠ "") :
    parseSectionBodyFrom lines name acc ty data = some ⟨ty, data⟩ := by
  have main : ∀ (ls : List String), (∀ l ∈ ls, l ≠ "") →
      ∀ acc2, parseSectionBodyFrom ls name acc2 ty data = some ⟨ty, data⟩ := by
    intro ls
    induction ls with
    | nil => intro _ acc2; rfl
    | cons l rest ih =>
      intro hh acc2
      have hl : l ≠ "" := hh l (List.mem_cons_self l rest)
      have hrest : ∀ x ∈ rest, x ≠ "" := fun x hx => hh x (List.mem_cons_of_mem l hx)
      simp only [parseSectionBodyFrom, List.length_cons]
      rw [runFuel, if_neg hl]
      exact ih hrest (acc2 ++ [splitFields l])
  exact main lines h acc

/-- Witness for C3 at a concrete input: the body `["k\tv"]` has no blank
line, so the open section `"S"` is dropped. -/
theorem claim_C3_witness :
    (∀ l ∈ ["k\tv"], l ≠ "") ∧
      parseSectionBodyFrom ["k\tv"] "S" [] PDFType.Unknown [] =
        some ⟨PDFType.Unknown, []⟩ :=
  ⟨by decide, claim_C3_discard_at_exhaustion ["k\tv"] "S" [] PDFType.Unknown []
    (by decide)⟩

/-- The round-trip input of the spec's "Section/body round trip" test. -/
def roundTripInput : String :=
  "Release Summary\nAward Date\t01/01/2020\nRelease Date\t01/15/2020\n\nCalculation of Gain\nMarket Value\t1234.56\n"

/-- Claim C1, counterexample: parsing the round-trip input does not yield
the two claimed sections. The input ends (without a trailing blank line)
while the parser is still inside the body of "Calculation of Gain", so
that section is discarded (the behavior established by C3). -/
theorem claim_C1_counterexample :
    (parserParse roundTripInput).map ParserOut.data ≠
      some [⟨"Release Summary",
              [("Award Date", "01/01/2020"), ("Release Date", "01/15/2020")]⟩,
            ⟨"Calculation of Gain", [("Market Value", "1234.56")]⟩] := by
  decide

/-- Claim C1 as amended: parsing the round-trip input yields exactly one
section, `("Release Summary", [("Award Date","01/01/2020"),
("Release Date","01/15/2020")])`; the trailing `("Calculation of Gain",
[("Market Value","1234.56")])` material is accumulated but discarded when
the input ends inside its body. -/
theorem claim_C1_amended :
    parserParse roundTripInput =
      some ⟨PDFType.Unknown,
        [⟨"Release Summary",
          [("Award Date", "01/01/2020"), ("Release Date", "01/15/2020")]⟩]⟩ := by
  decide

/-- Claim C6, counterexample: in the body of section "S", a blank line is
followed by the next unconsumed line `"k\tv"`, which exists and contains a
tab — yet the section is closed and appended, because that line is the
last line of the input and `Parser::peek` (whose guard is
`pos >= lines.len() - 1`) can never see the last line. -/
theorem claim_C6_counterexample :
    hasTab "k\tv" = true ∧
      parseSectionBodyFrom ["", "k\tv"] "S" [] PDFType.Unknown [] =
        some ⟨PDFType.Unknown, [⟨"S", []⟩]⟩ := by
  constructor
  · decide
  · decide

/-- Claim C6 as amended: when the parser reads a blank line in
`InSectionBody` and at least two unconsumed lines remain, the first of
them is inspected without being consumed — if it contains a tab the
parser stays in `InSectionBody` (the section is not closed), otherwise
the section is closed (appended to the section list) and the machine
returns to `ScanningForSection`; when at most one unconsumed line
remains (in particular when the line after the blank is the final line,
whether or not it contains a tab), the peek reports nothing and the
section is closed. -/
theorem claim_C6_amended (a b : String) (rest : List String) (name : String)
    (acc : List (String × String)) (ty : PDFType) (data : List Section) :
    (hasTab a = true →
      parseSectionBodyFrom ("" :: a :: b :: rest) name acc ty data =
        parseSectionBodyFrom (a :: b :: rest) name acc ty data) ∧
    (hasTab a = false →
      parseSectionBodyFrom ("" :: a :: b :: rest) name acc ty data =
        parseSectionFrom (a :: b :: rest) ty (data ++ [⟨name, acc⟩])) ∧
    (∀ tail : List String, tail.length ≤ 1 →
      parseSectionBodyFrom ("" :: tail) name acc ty data =
        parseSectionFrom tail ty (data ++ [⟨name, acc⟩])) := by
  refine ⟨fun htab => ?_, fun htab => ?_, fun tail htail => ?_⟩
  · simp only [parseSectionBodyFrom, List.length_cons]
    rw [runFuel_body_cons, if_pos rfl]
    simp [peekNext, htab]
  · simp only [parseSectionBodyFrom, parseSectionFrom, List.length_cons]
    rw [runFuel_body_cons, if_pos rfl]
    simp [peekNext, htab]
  · match tail, htail with
    | [], _ =>
      simp only [parseSectionBodyFrom, parseSectionFrom, List.length_cons,
        List.length_nil]
      rw [runFuel_body_cons, if_pos rfl]
      simp [peekNext]
    | [x], _ =>
      simp only [parseSectionBodyFrom, parseSectionFrom, List.length_cons,
        List.length_nil]
      rw [runFuel_body_cons, if_pos rfl]
      simp [peekNext]

/-- Witness for C6 at concrete inputs: a blank followed by the
tab-containing line `"x\ty"` and at least one further line keeps the
section open. -/
theorem claim_C6_witness :
    hasTab "x\ty" = true ∧
      parseSectionBodyFrom ["", "x\ty", "z"] "S" [] PDFType.Unknown [] =
        parseSectionBodyFrom ["x\ty", "z"] "S" [] PDFType.Unknown [] :=
  ⟨by decide,
    (claim_C6_amended "x\ty" "z" [] "S" [] PDFType.Unknown []).1 (by decide)⟩

/-- The input holding both header literals, the second different from the
first. -/
def twoHeaderInput : String :=
  "EMPLOYEE STOCK PLAN RELEASE CONFIRMATION\nEMPLOYEE STOCK PLAN PURCHASE CONFIRMATION"

/-- Claim C7, counterexample: the first header line encountered records
kind RSU, but after parse completes the kind is ESPP — the second,
different header literal overwrote it, so the kind recorded at the first
header line does not survive. -/
theorem claim_C7_counterexample :
    (parserParse twoHeaderInput).map ParserOut.pdf_type = some PDFType.ESPP ∧
      PDFType.ESPP ≠ PDFType.RSU := by
  constructor
  · decide
  · decide

/-- Claim C7 as amended: while scanning for sections, each header line
sets the document kind to that header's kind unconditionally, overwriting
whatever kind was recorded before; hence after parse completes the kind
is the one recorded at the last header line encountered in scanning
state, not the first. -/
theorem claim_C7_amended (rest : List String) (ty : PDFType) (data : List Section) :
    parseSectionFrom ("EMPLOYEE STOCK PLAN RELEASE CONFIRMATION" :: rest) ty data =
      parseSectionFrom rest PDFType.RSU data ∧
    parseSectionFrom ("EMPLOYEE STOCK PLAN PURCHASE CONFIRMATION" :: rest) ty data =
      parseSectionFrom rest PDFType.ESPP data := by
  constructor
  · simp only [parseSectionFrom, List.length_cons]
    rw [runFuel_scan_cons]
    simp
  · simp only [parseSectionFrom, List.length_cons]
    rw [runFuel_scan_cons]
    simp

/-- Claim C9 (implicit): `Parser::parse` terminates for every input
string. The state machine driven with fuel `lines.length + 1` — one unit
per state-function step, each of which consumes at least one line, so the
position strictly increases and is bounded by the number of lines — never
exhausts its fuel. -/
theorem claim_C9_parse_terminates (input : String) :
    (parserParse input).isSome = true :=
  runFuel_isSome ((parserNewLines input).length + 1) MState.scan (parserNewLines input)
    PDFType.Unknown [] (Nat.lt_succ_self _)

/-- Claim C10 (implicit): `Parser::parse` never panics for any input
string. In the checked model every indexing of the line vector (in
`next`, `peek` and `skip_empty_lines`), the subtraction
`lines.len() - 1` in `peek`, and the `parts[0]` index in
`parse_section_body` is an explicit `Except` failure, and the run from
the initial state always returns `ok`. -/
theorem claim_C10_no_panic (input : String) :
    (parserParseChecked input).isOk = true :=
  runFuelC_isOk ((parserNewLines input).length + 1) MState.scan (parserNewLines input) 0
    PDFType.Unknown [] (Nat.lt_succ_of_le (Nat.sub_le _ _))

/-- Claim C4, counterexample: a section body whose last pair has an empty
value, `[("K","")]`, does contribute to the field map — the code's
`else` branch inserts the pair as is, so `"K"` is stored mapped to the
empty string, contradicting "its key is not stored, not even mapped to
the empty string". -/
theorem claim_C4_counterexample :
    lookupField (sections_to_map [⟨"S", [("K", "")]⟩]) "S" "K" = some "" ∧
      lookupField (sections_to_map [⟨"S", [("K", "")]⟩]) "S" "K" ≠ none := by
  constructor
  · decide
  · decide

/-- Claim C4 as amended: a pair with an empty value that is the last pair
of its section body is stored like any other pair — its key is inserted
mapped to the empty string (the `else` branch of `sections_to_map`
executes `entry.insert(name, value)` whenever the value is non-empty or
no following pair exists). -/
theorem claim_C4_amended (entry : List (String × String)) (k : String) :
    processBody [(k, "")] entry = updateA entry k "" ∧
      lookupA (processBody [(k, "")] entry) k = some "" := by
  constructor
  · rfl
  · rw [show processBody [(k, "")] entry = updateA entry k "" from rfl]
    exact lookupA_updateA_self entry k ""

/-- Claim C5: whenever the current pair's value is empty and a following
pair exists, the following pair is consumed as a continuation — keyed by
the original key alone when the continuation key starts with `"("`, and
by `"<original key> <continuation key>"` otherwise — and in particular
`[("Total Due",""),("Participant","500.00")]` assembles to
`{"Total Due Participant": "500.00"}` and `[("Fee",""),
("(estimated)","2.50")]` assembles to `{"Fee": "2.50"}`. -/
theorem claim_C5_continuation_merge :
    (∀ (k k2 v2 : String) (rest : List (String × String))
        (entry : List (String × String)),
      processBody ((k, "") :: (k2, v2) :: rest) entry =
        processBody rest
          (updateA entry (if startsWithParen k2 then k else k ++ " " ++ k2) v2)) ∧
    sections_to_map [⟨"S", [("Total Due", ""), ("Participant", "500.00")]⟩] =
      [("S", [("Total Due Participant", "500.00")])] ∧
    sections_to_map [⟨"S", [("Fee", ""), ("(estimated)", "2.50")]⟩] =
      [("S", [("Fee", "2.50")])] := by
  refine ⟨fun k k2 v2 rest entry => ?_, by decide, by decide⟩
  cases h : startsWithParen k2 <;> simp [processBody, h]

/-- Claim C2, counterexample: with the cursor at `last_end = 10`,
`last_y = 0` and `first_char` set, a word at `x = 5`, `y = 100` with
transformed font size `1` jumps vertically by more than `1.5 * 1`, yet
two newline characters are emitted, not one: the wrap-back rule
(`x < last_end` with a jump above `0.5 * font_size`) fires as well,
because the four separator `if`s are independent rather than mutually
exclusive. -/
theorem claim_C2_counterexample :
    rabs ((100 : ℚ) - 0) > 1 * 1.5 ∧
      countChar '\n' (sepString ⟨10, 0, true⟩ 5 100 1) = 2 ∧
      countChar '\n' (sepString ⟨10, 0, true⟩ 5 100 1) ≠ 1 := by
  have e : sepString ⟨10, 0, true⟩ 5 100 1 = "\n" ++ "\n" ++ "" ++ "" := by
    rw [sepString]
    norm_num [rabs]
  refine ⟨by norm_num [rabs], ?_, ?_⟩
  · rw [e]
    rfl
  · rw [e]
    decide

/-- Claim C2 as amended: a word whose `y` differs from the prior word's
`y` by more than `1.5 * font_size` yields at least one newline; the exact
count depends on `x` — one extra newline when `x < last_end` (the
wrap-back rule, whose `0.5 * font_size` clause is implied by the
`1.5 * font_size` jump) and one extra when `x > last_end ∧ y < last_y`
(the column-restart rule). -/
theorem claim_C2_amended (st : TextState) (x y tfs : ℚ)
    (hfc : st.first_char = true) (hjump : rabs (y - st.last_y) > tfs * 1.5) :
    countChar '\n' (sepString st x y tfs) =
      1 + (if x < st.last_end then 1 else 0)
        + (if x > st.last_end ∧ y < st.last_y then 1 else 0) := by
  have hhalf : rabs (y - st.last_y) > tfs * 0.5 := rabs_gt_half hjump
  rw [sepString, hfc, if_pos rfl, if_pos hjump]
  have e2 : (if x < st.last_end ∧ rabs (y - st.last_y) > tfs * 0.5 then "\n" else "") =
      (if x < st.last_end then "\n" else "") := by
    by_cases hx : x < st.last_end
    · rw [if_pos ⟨hx, hhalf⟩, if_pos hx]
    · rw [if_neg (fun hc => hx hc.1), if_neg hx]
  rw [e2]
  rw [countChar_append, countChar_append, countChar_append]
  by_cases hx : x < st.last_end <;>
    by_cases hcol : x > st.last_end ∧ y < st.last_y <;>
      by_cases htb : x > st.last_end + tfs * 0.1 <;>
        simp [hx, hcol, htb, countChar]

/-- Witness for C2 as amended: at `x = 5` with `last_end = 0`, neither
extra rule fires, so exactly one newline results. -/
theorem claim_C2_witness :
    countChar '\n' (sepString ⟨0, 0, true⟩ 5 100 1) =
      1 + (if (5 : ℚ) < (0 : ℚ) then 1 else 0)
        + (if (5 : ℚ) > (0 : ℚ) ∧ (100 : ℚ) < (0 : ℚ) then 1 else 0) :=
  claim_C2_amended ⟨0, 0, true⟩ 5 100 1 rfl (by norm_num [rabs])

/-- Claim C8: the very first `output_character` call, with the cursor in
its freshly initialized state (`PlainTextOutput::new` sets
`first_char = false`, `last_end = 100000.`, `last_y = 0.`), emits no
separator: the written text is exactly the glyph text, with no newline
and no tab before it, for every position and font size. -/
theorem claim_C8_first_glyph_no_separator (x y tfs width : ℚ) (ch : String) :
    sepString initTextState x y tfs = "" ∧
      (output_character initTextState x y tfs width ch).2 = ch := by
  have hsep : sepString initTextState x y tfs = "" := by
    rw [sepString]
    norm_num [initTextState]
  refine ⟨hsep, ?_⟩
  rw [output_character, hsep]
  exact String.ext (by simp [String.data_append])
